import Mathlib

set_option maxHeartbeats 1000000

/-!
Shallow embedding of the two source files of this repository:
`src/gradio/components/markdown.py` (the `Markdown` component) and
`src/gradio/context.py` (the `Context` declaration-session state).

Python values occurring in config / update payloads are modelled by the
inductive `PyVal`; Python dicts by insertion-ordered association lists.
Strings are manipulated at the `List Char` level (`String.data`), which
matches Python's code-point level string operations.
-/

/-- One LaTeX delimiter rule: a Python dict of the shape
`{"left": str, "right": str, "display": bool}` (see the `latex_delimiters`
parameter of `Markdown.__init__`). -/
structure LatexDelim where
  left : String
  right : String
  display : Bool

/-- The Python values that occur in this excerpt's payloads.
`pyNone` is Python `None`; `noValue` is the `_Keywords.NO_VALUE` sentinel
used as the default of the `value` argument of `Markdown.update`. -/
inductive PyVal where
  | pyNone : PyVal
  | noValue : PyVal
  | str : String → PyVal
  | bool : Bool → PyVal
  | int : Int → PyVal
  | delimList : List LatexDelim → PyVal
  | list : List PyVal → PyVal

/-- A Python dict with string keys, as an insertion-ordered association list. -/
abbrev PyDict := List (String × PyVal)

/-- `d[k]` lookup: the value at the first (and only) entry with key `k`. -/
def dictGet (d : PyDict) (k : String) : Option PyVal :=
  (d.find? (fun kv => kv.1 == k)).map Prod.snd

/-- `list(d.keys())` of a Python dict. -/
def dictKeys (d : PyDict) : List String :=
  d.map Prod.fst

/-- `d[k] = v` on a Python dict: overwrite in place if the key exists,
append otherwise. -/
def dictSet (d : PyDict) (k : String) (v : PyVal) : PyDict :=
  if d.any (fun kv => kv.1 == k) then
    d.map (fun kv => if kv.1 == k then (k, v) else kv)
  else
    d ++ [(k, v)]

/-- `{**d, **e}`-style extension: insert the entries of `e` into `d` in order. -/
def dictExtend (d e : PyDict) : PyDict :=
  e.foldl (fun acc kv => dictSet acc kv.1 kv.2) d

/-- Encode the `latex_delimiters` attribute (`None` or a list of rule dicts)
as a Python value. -/
def optDelimsToPy : Option (List LatexDelim) → PyVal
  | none => PyVal.pyNone
  | some ds => PyVal.delimList ds

/-- Encode an optional string attribute (`elem_id`) as a Python value. -/
def optStrToPy : Option String → PyVal
  | none => PyVal.pyNone
  | some s => PyVal.str s

/-- Encode the optional `elem_classes` list as a Python value. -/
def optStrListToPy : Option (List String) → PyVal
  | none => PyVal.pyNone
  | some ss => PyVal.list (ss.map PyVal.str)

/-! ### Python string helpers used by `inspect.cleandoc`

`Markdown.postprocess` calls `inspect.cleandoc(y)`; its exact algorithm
(from CPython's `inspect.py`) is embedded below over `List Char`. -/

/-- Python's whitespace test for `str.lstrip()` / `str.isspace()`,
restricted to the ASCII whitespace characters (the non-ASCII Unicode
whitespace code points are irrelevant to this development). -/
def pyIsSpace (c : Char) : Bool :=
  c = ' ' || c = '\t' || c = '\n' || c = '\r' || c = '\x0b' || c = '\x0c'

/-- Python `line.lstrip()`: drop leading whitespace. -/
def pyLstrip (l : List Char) : List Char :=
  l.dropWhile pyIsSpace

/-- Python `s.split('\n')`: split at every newline, keeping empty pieces;
the empty string yields `[""]`. -/
def splitOnNl : List Char → List (List Char)
  | [] => [[]]
  | c :: cs =>
    let r := splitOnNl cs
    if c = '\n' then [] :: r
    else
      match r with
      | [] => [[c]]
      | h :: t => (c :: h) :: t

/-- Python `'\n'.join(lines)`. -/
def joinNl : List (List Char) → List Char
  | [] => []
  | [l] => l
  | l :: ls => l ++ '\n' :: joinNl ls

/-- Python `s.expandtabs()` with the default tab size 8: each tab becomes
the spaces needed to reach the next multiple-of-8 column; the column
counter resets after `'\n'` and `'\r'`. -/
def pyExpandtabsAux (col : Nat) : List Char → List Char
  | [] => []
  | c :: cs =>
    if c = '\t' then
      let pad := 8 - col % 8
      List.replicate pad ' ' ++ pyExpandtabsAux (col + pad) cs
    else if c = '\n' || c = '\r' then
      c :: pyExpandtabsAux 0 cs
    else
      c :: pyExpandtabsAux (col + 1) cs

/-- Python `s.expandtabs()` starting at column 0. -/
def pyExpandtabs (s : List Char) : List Char :=
  pyExpandtabsAux 0 s

/-- The indentation of a line: `len(line) - len(line.lstrip())`. -/
def lineIndent (l : List Char) : Nat :=
  l.length - (pyLstrip l).length

/-- One iteration of the margin loop of `inspect.cleandoc`: a blank line
is skipped, a non-blank line lowers the running minimum indentation
(`none` stands for the untouched `sys.maxsize` initial value). -/
def marginStep (m : Option Nat) (line : List Char) : Option Nat :=
  if (pyLstrip line).isEmpty then m
  else
    match m with
    | none => some (lineIndent line)
    | some k => some (min k (lineIndent line))

/-- The margin loop of `inspect.cleandoc`: minimum indentation over the
non-blank lines, folded left as in the Python `for` loop. -/
def marginOf (lines : List (List Char)) : Option Nat :=
  lines.foldl marginStep none

/-- The margin-removal step of `inspect.cleandoc` for the lines after the
first: if the margin was computed (`margin < sys.maxsize`), drop it from
every line. -/
def applyMargin (rest : List (List Char)) : List (List Char) :=
  match marginOf rest with
  | none => rest
  | some k => rest.map (List.drop k)

/-- The final trimming of `inspect.cleandoc`: pop trailing then leading
lines that are exactly the empty string. -/
def trimBlankEnds (lines : List (List Char)) : List (List Char) :=
  ((lines.reverse.dropWhile List.isEmpty).reverse).dropWhile List.isEmpty

/-- `inspect.cleandoc`, line list form: expand tabs, split on newlines,
fully lstrip the first line, remove the margin (minimum indentation of the
non-blank later lines) from every later line, then drop trailing and
leading empty lines. -/
def cleandocLines (doc : List Char) : List (List Char) :=
  match splitOnNl (pyExpandtabs doc) with
  | [] => []
  | l0 :: rest => trimBlankEnds (pyLstrip l0 :: applyMargin rest)

/-- `inspect.cleandoc` on character lists. -/
def cleandoc (doc : List Char) : List Char :=
  joinNl (cleandocLines doc)

/-- `inspect.cleandoc` on strings. -/
def cleandocStr (s : String) : String :=
  ⟨cleandoc s.data⟩

/-! ### The `Markdown` component -/

/-- The attribute state of a constructed `Markdown` component.
`rtl` and `latex_delimiters` are set by `Markdown.__init__` itself;
`value`, `visible`, `elem_id`, `elem_classes` are forwarded to
`Component.__init__`. -/
structure Markdown where
  value : PyVal
  rtl : Bool
  latex_delimiters : Option (List LatexDelim)
  visible : Bool
  elem_id : Option String
  elem_classes : Option (List String)

/-- `Markdown.__init__`: stores `rtl` and `latex_delimiters` verbatim
(note: the source stores the argument as given, it does NOT substitute the
documented default rule when the argument is `None`), and forwards
`value`, `visible`, `elem_id`, `elem_classes` to the base constructor.
Modelled from the spec: `Component.__init__` (the base class, not under
`src/`) stores `value`, `visible`, `elem_id` and `elem_classes` verbatim
as attributes (the spec's §8 scenario: "value is stored verbatim at
construction"). Source defaults: `value=""`, `rtl=False`,
`latex_delimiters=None`, `visible=True`, `elem_id=None`,
`elem_classes=None`. -/
def Markdown.init (value : PyVal) (rtl : Bool)
    (latex_delimiters : Option (List LatexDelim)) (visible : Bool)
    (elem_id : Option String) (elem_classes : Option (List String)) :
    Markdown :=
  { value := value
    rtl := rtl
    latex_delimiters := latex_delimiters
    visible := visible
    elem_id := elem_id
    elem_classes := elem_classes }

/-- Modelled from the spec: `Component.get_config` (the base class, not
under `src/`) contributes the generic base keys `visible`, `elem_id`,
`elem_classes` (spec §6: "generic base keys (`visible`, `elem_id`,
`elem_classes`) contributed by the base component contract"). -/
def Component.get_config (m : Markdown) : PyDict :=
  [("visible", PyVal.bool m.visible),
   ("elem_id", optStrToPy m.elem_id),
   ("elem_classes", optStrListToPy m.elem_classes)]

/-- `Markdown.get_config`: the dict literal
`{"value": self.value, "rtl": self.rtl,
  "latex_delimiters": self.latex_delimiters, **Component.get_config(self)}`. -/
def Markdown.get_config (m : Markdown) : PyDict :=
  dictExtend
    [("value", m.value),
     ("rtl", PyVal.bool m.rtl),
     ("latex_delimiters", optDelimsToPy m.latex_delimiters)]
    (Component.get_config m)

/-- `Markdown.postprocess`: `None` maps to `None`, otherwise
`inspect.cleandoc` of the input. -/
def Markdown.postprocess (y : Option String) : Option String :=
  match y with
  | none => none
  | some s => some (cleandocStr s)

/-- `Markdown.update`: builds the update payload dict
`{"visible": visible, "value": value, "rtl": rtl,
  "latex_delimiters": latex_delimiters, "__type__": "update"}`.
Source defaults (the values a field carries when not supplied at the call
site): `value=_Keywords.NO_VALUE` (`PyVal.noValue`), `visible=None`,
`rtl=None`, `latex_delimiters=None` (`PyVal.pyNone`). -/
def Markdown.update (value visible rtl latex_delimiters : PyVal) : PyDict :=
  [("visible", visible),
   ("value", value),
   ("rtl", rtl),
   ("latex_delimiters", latex_delimiters),
   ("__type__", PyVal.str "update")]

/-- `Markdown.as_example`: `postprocess(input_data) if truthy else ""`
(Python truthiness: `None` and the empty string are falsy). -/
def Markdown.as_example (input_data : Option String) : String :=
  match Markdown.postprocess input_data with
  | none => ""
  | some s => if s.isEmpty then "" else s

/-- `Markdown.preprocess`: the identity on any value. -/
def Markdown.preprocess (_m : Markdown) (x : PyVal) : PyVal :=
  x

/-- `Markdown.example_inputs`: the fixed string `"# Hello!"`. -/
def Markdown.example_inputs (_m : Markdown) : PyVal :=
  PyVal.str "# Hello!"

/-- `Markdown.api_info`: the fixed dict `{"type": "string"}`. -/
def Markdown.api_info (_m : Markdown) : PyDict :=
  [("type", PyVal.str "string")]

/-! ### The `Context` class -/

/-- The `Context` class of `src/gradio/context.py`: three class-level
fields. `Blocks` and `BlockContext` are only type annotations there (the
classes live outside this excerpt), so the state is parametrised over
them. -/
structure Context (Blocks BlockContext : Type) where
  root_block : Option Blocks
  block : Option BlockContext
  id : Nat

/-- The initial (class-level) state of `Context`:
`root_block = None`, `block = None`, `id = 0`. -/
def Context.initial (Blocks BlockContext : Type) : Context Blocks BlockContext :=
  { root_block := none, block := none, id := 0 }

/-! ### Theorems -/

/-- C1: in every call to `Markdown.update`, a field that is not explicitly
supplied carries its "unchanged" sentinel default (`_Keywords.NO_VALUE`
for `value`, `None` for the other fields) in the returned payload; in
particular `update(value="x", rtl=True)` yields the payload with
`latex_delimiters` and `visible` at their sentinel, `value = "x"`,
`rtl = True` and `__type__ = "update"`. -/
theorem C1_update_unsupplied_fields_carry_sentinel :
    (∀ vi r l, dictGet (Markdown.update PyVal.noValue vi r l) "value" =
      some PyVal.noValue) ∧
    (∀ v r l, dictGet (Markdown.update v PyVal.pyNone r l) "visible" =
      some PyVal.pyNone) ∧
    (∀ v vi l, dictGet (Markdown.update v vi PyVal.pyNone l) "rtl" =
      some PyVal.pyNone) ∧
    (∀ v vi r, dictGet (Markdown.update v vi r PyVal.pyNone) "latex_delimiters" =
      some PyVal.pyNone) ∧
    Markdown.update (PyVal.str "x") PyVal.pyNone (PyVal.bool true) PyVal.pyNone =
      [("visible", PyVal.pyNone), ("value", PyVal.str "x"),
       ("rtl", PyVal.bool true), ("latex_delimiters", PyVal.pyNone),
       ("__type__", PyVal.str "update")] :=
  ⟨fun _ _ _ => rfl, fun _ _ _ => rfl, fun _ _ _ => rfl, fun _ _ _ => rfl, rfl⟩

/-- C2 (code bug): constructing a `Markdown` with all defaults (no
`latex_delimiters` supplied) stores and reports `None` for
`latex_delimiters` in `get_config`, NOT the single documented default rule
`{left: "$", right: "$", display: false}`: `Markdown.__init__` assigns the
argument verbatim without the substitution its own docstring promises. -/
theorem C2_latex_default_not_substituted :
    dictGet (Markdown.get_config
        (Markdown.init (PyVal.str "") false none true none none))
      "latex_delimiters" = some PyVal.pyNone ∧
    some PyVal.pyNone ≠
      some (PyVal.delimList [{ left := "$", right := "$", display := false }]) :=
  ⟨rfl, fun h => PyVal.noConfusion (Option.some.inj h)⟩

/-- C3 counterexample: both lines of `"  a\n   b"` share the common
leading whitespace prefix `"  "`; removing exactly that prefix from every
line would give `"a\n b"`, but `postprocess` returns `"a\nb"` — the first
line is fully lstripped and the margin is computed only from the later
lines, so the relative indentation between line 1 and line 2 is lost. -/
theorem C3_counterexample_first_line :
    Markdown.postprocess (some "  a\n   b") = some "a\nb" ∧
    Markdown.postprocess (some "  a\n   b") ≠ some "a\n b" :=
  ⟨by decide, by decide⟩

/-- C4: `postprocess` maps absent to absent and is total: the result is
absent exactly when the input is absent (a present string never raises
and never becomes absent). -/
theorem C4_postprocess_absent_in_absent_out :
    Markdown.postprocess none = none ∧
    ∀ y : Option String, Markdown.postprocess y = none ↔ y = none := by
  refine ⟨rfl, fun y => ?_⟩
  cases y <;> simp [Markdown.postprocess]

/-- C5: `as_example` equals `postprocess` whenever that result is a
non-empty string, and equals `""` when the `postprocess` result is absent
or empty; in particular `as_example(None) = ""` and
`as_example("  hi") = "hi"` (the de-indented string). -/
theorem C5_as_example_defaults_to_empty :
    (∀ x s, Markdown.postprocess x = some s → s ≠ "" →
      Markdown.as_example x = s) ∧
    (∀ x, Markdown.postprocess x = none ∨ Markdown.postprocess x = some "" →
      Markdown.as_example x = "") ∧
    Markdown.as_example none = "" ∧
    Markdown.as_example (some "  hi") = "hi" := by
  refine ⟨?_, ?_, rfl, by decide⟩
  · intro x s h hs
    unfold Markdown.as_example
    rw [h]
    simp [hs]
    intro he
    exact absurd ((String.isEmpty_iff s).mp he) hs
  · intro x h
    unfold Markdown.as_example
    rcases h with h | h
    · rw [h]
    · rw [h]
      simp

/-- C5 witness: `C5_as_example_defaults_to_empty` applied at the concrete
input `"a"`, whose `postprocess` result is the non-empty string `"a"`. -/
theorem C5_as_example_witness :
    Markdown.postprocess (some "a") = some "a" ∧
    Markdown.as_example (some "a") = "a" :=
  ⟨by decide,
   C5_as_example_defaults_to_empty.1 (some "a") "a" (by decide) (by decide)⟩

/-- C6: the value passed at construction is stored verbatim and reported
unchanged by `get_config` (no de-indentation at construction); in
particular for `value = "# Title\n  indented"`. -/
theorem C6_value_stored_verbatim :
    (∀ (s : String) (rtl : Bool) (ld : Option (List LatexDelim))
        (vis : Bool) (eid : Option String) (ecls : Option (List String)),
      dictGet (Markdown.get_config (Markdown.init (PyVal.str s) rtl ld vis eid ecls))
        "value" = some (PyVal.str s)) ∧
    dictGet (Markdown.get_config
        (Markdown.init (PyVal.str "# Title\n  indented") false none true none none))
      "value" = some (PyVal.str "# Title\n  indented") :=
  ⟨fun _ _ _ _ _ _ => rfl, rfl⟩

/-- C7: `api_info` returns the fixed mapping `{"type": "string"}` for
every component. -/
theorem C7_api_info_fixed (m : Markdown) :
    Markdown.api_info m = [("type", PyVal.str "string")] :=
  rfl

/-- C8: `preprocess` is the identity transform on every input value. -/
theorem C8_preprocess_identity (m : Markdown) (x : PyVal) :
    Markdown.preprocess m x = x :=
  rfl

/-- C9: the initial state of `Context` has both container references
absent and the id counter at zero. -/
theorem C9_context_initial_state (Blocks BlockContext : Type) :
    (Context.initial Blocks BlockContext).root_block = none ∧
    (Context.initial Blocks BlockContext).block = none ∧
    (Context.initial Blocks BlockContext).id = 0 :=
  ⟨rfl, rfl, rfl⟩

/-- C10: for every combination of arguments, `Markdown.update` returns a
payload whose key list is exactly
`visible, value, rtl, latex_delimiters, __type__` and whose `__type__`
entry is the string `"update"`. -/
theorem C10_update_key_set (v vi r l : PyVal) :
    dictKeys (Markdown.update v vi r l) =
      ["visible", "value", "rtl", "latex_delimiters", "__type__"] ∧
    dictGet (Markdown.update v vi r l) "__type__" = some (PyVal.str "update") :=
  ⟨rfl, rfl⟩

/-! ### Helper lemmas about the `cleandoc` embedding -/

theorem pyExpandtabsAux_of_not_tab (l : List Char) (h : '\t' ∉ l) :
    ∀ col, pyExpandtabsAux col l = l := by
  induction l with
  | nil => intro _; rfl
  | cons c cs ih =>
    intro col
    have hc : ¬ c = '\t' := by
      intro hc
      apply h
      rw [← hc]
      exact List.mem_cons_self c cs
    have hcs : '\t' ∉ cs := fun hm => h (List.mem_cons_of_mem c hm)
    unfold pyExpandtabsAux
    rw [if_neg hc]
    by_cases hnl : (c = '\n' || c = '\r') = true
    · rw [if_pos hnl, ih hcs 0]
    · rw [if_neg hnl, ih hcs (col + 1)]

theorem pyExpandtabs_of_not_tab (l : List Char) (h : '\t' ∉ l) :
    pyExpandtabs l = l :=
  pyExpandtabsAux_of_not_tab l h 0

theorem mem_joinNl {c : Char} :
    ∀ L : List (List Char), c ∈ joinNl L → c = '\n' ∨ ∃ l ∈ L, c ∈ l := by
  intro L
  induction L with
  | nil => intro h; cases h
  | cons l ls ih =>
    cases ls with
    | nil =>
      intro h
      exact Or.inr ⟨l, List.mem_cons_self l [], h⟩
    | cons l2 ls2 =>
      intro h
      rw [show joinNl (l :: l2 :: ls2) = l ++ '\n' :: joinNl (l2 :: ls2) from rfl] at h
      rcases List.mem_append.mp h with h1 | h1
      · exact Or.inr ⟨l, List.mem_cons_self l (l2 :: ls2), h1⟩
      · rcases List.mem_cons.mp h1 with h2 | h2
        · exact Or.inl h2
        · rcases ih h2 with h3 | ⟨lw, hlw, hcw⟩
          · exact Or.inl h3
          · exact Or.inr ⟨lw, List.mem_cons_of_mem l hlw, hcw⟩

theorem splitOnNl_of_not_nl (l : List Char) (h : '\n' ∉ l) :
    splitOnNl l = [l] := by
  induction l with
  | nil => rfl
  | cons c cs ih =>
    have hc : ¬ c = '\n' := by
      intro hc
      apply h
      rw [← hc]
      exact List.mem_cons_self c cs
    have hcs : '\n' ∉ cs := fun hm => h (List.mem_cons_of_mem c hm)
    simp only [splitOnNl, ih hcs]
    rw [if_neg hc]

theorem splitOnNl_append_nl (l rest : List Char) (h : '\n' ∉ l) :
    splitOnNl (l ++ '\n' :: rest) = l :: splitOnNl rest := by
  induction l with
  | nil => rfl
  | cons c cs ih =>
    have hc : ¬ c = '\n' := by
      intro hc
      apply h
      rw [← hc]
      exact List.mem_cons_self c cs
    have hcs : '\n' ∉ cs := fun hm => h (List.mem_cons_of_mem c hm)
    simp only [List.cons_append, splitOnNl, ih hcs]
    rw [if_neg hc]
    rw [show cs.append ('\n' :: rest) = cs ++ '\n' :: rest from rfl, ih hcs]

theorem splitOnNl_joinNl :
    ∀ L : List (List Char), (∀ l ∈ L, '\n' ∉ l) → L ≠ [] →
      splitOnNl (joinNl L) = L := by
  intro L
  induction L with
  | nil => intro _ hne; exact absurd rfl hne
  | cons l ls ih =>
    intro hL _
    cases ls with
    | nil => exact splitOnNl_of_not_nl l (hL l (List.mem_cons_self l []))
    | cons l2 ls2 =>
      rw [show joinNl (l :: l2 :: ls2) = l ++ '\n' :: joinNl (l2 :: ls2) from rfl,
        splitOnNl_append_nl l _ (hL l (List.mem_cons_self l (l2 :: ls2))),
        ih (fun lw hlw => hL lw (List.mem_cons_of_mem l hlw)) (List.cons_ne_nil l2 ls2)]

theorem pyLstrip_replicate_append (k : Nat) (t : List Char) :
    pyLstrip (List.replicate k ' ' ++ t) = pyLstrip t := by
  induction k with
  | zero => rfl
  | succ n ih =>
    rw [List.replicate_succ, List.cons_append]
    unfold pyLstrip
    rw [List.dropWhile_cons, if_pos (by decide)]
    exact ih

theorem pyLstrip_length_le (l : List Char) : (pyLstrip l).length ≤ l.length :=
  (List.dropWhile_suffix pyIsSpace).length_le

theorem lineIndent_replicate_append (k : Nat) (t : List Char) :
    lineIndent (List.replicate k ' ' ++ t) = k + lineIndent t := by
  unfold lineIndent
  rw [pyLstrip_replicate_append, List.length_append, List.length_replicate]
  have := pyLstrip_length_le t
  omega

theorem marginStep_none (l : List Char) (h : ¬(pyLstrip l).isEmpty = true) :
    marginStep none l = some (lineIndent l) := by
  unfold marginStep
  rw [if_neg h]

theorem marginStep_some (a : Nat) (l : List Char) (h : ¬(pyLstrip l).isEmpty = true) :
    marginStep (some a) l = some (min a (lineIndent l)) := by
  unfold marginStep
  rw [if_neg h]

theorem foldl_marginStep_some (lines : List (List Char)) :
    (∀ l ∈ lines, ¬(pyLstrip l).isEmpty = true) → ∀ a : Nat,
      lines.foldl marginStep (some a) =
        some (lines.foldl (fun m line => min m (lineIndent line)) a) := by
  induction lines with
  | nil => intro _ a; rfl
  | cons l ls ih =>
    intro h a
    rw [List.foldl_cons, marginStep_some a l (h l (List.mem_cons_self l ls)),
      ih (fun lw hlw => h lw (List.mem_cons_of_mem l hlw)) (min a (lineIndent l)),
      List.foldl_cons]

theorem foldl_min_indent (lines : List (List Char)) :
    ∀ a k : Nat, k ≤ a →
      (∀ l ∈ lines, k ≤ lineIndent l) →
      (a = k ∨ ∃ l ∈ lines, lineIndent l = k) →
      lines.foldl (fun m line => min m (lineIndent line)) a = k := by
  induction lines with
  | nil =>
    intro a k _ _ hex
    rcases hex with h | ⟨l, hl, _⟩
    · simpa using h
    · cases hl
  | cons l ls ih =>
    intro a k hka hall hex
    rw [List.foldl_cons]
    have hkl : k ≤ lineIndent l := hall l (List.mem_cons_self l ls)
    apply ih (min a (lineIndent l)) k (le_min hka hkl)
      (fun lw hlw => hall lw (List.mem_cons_of_mem l hlw))
    rcases hex with h | ⟨lw, hlw, hind⟩
    · left; omega
    · rcases List.mem_cons.mp hlw with h2 | h2
      · left
        rw [h2] at hind
        omega
      · right
        exact ⟨lw, h2, hind⟩

theorem marginOf_cons_eq (r0 : List Char) (rs : List (List Char)) (k : Nat)
    (h0 : ¬(pyLstrip r0).isEmpty = true)
    (hrs : ∀ l ∈ rs, ¬(pyLstrip l).isEmpty = true)
    (h0k : k ≤ lineIndent r0)
    (hallk : ∀ l ∈ rs, k ≤ lineIndent l)
    (hex : lineIndent r0 = k ∨ ∃ l ∈ rs, lineIndent l = k) :
    marginOf (r0 :: rs) = some k := by
  unfold marginOf
  rw [List.foldl_cons, marginStep_none r0 h0, foldl_marginStep_some rs hrs (lineIndent r0)]
  exact congrArg some (foldl_min_indent rs (lineIndent r0) k h0k hallk hex)

theorem dropWhile_eq_self_of_all {α : Type} (p : α → Bool) (L : List α)
    (h : ∀ x ∈ L, ¬ p x = true) : L.dropWhile p = L := by
  cases L with
  | nil => rfl
  | cons a l => rw [List.dropWhile_cons, if_neg (h a (List.mem_cons_self a l))]

theorem trimBlankEnds_eq_self (L : List (List Char)) (h : ∀ l ∈ L, l ≠ []) :
    trimBlankEnds L = L := by
  unfold trimBlankEnds
  have hb : ∀ l ∈ L, ¬ l.isEmpty = true := by
    intro l hl hemp
    exact h l hl (List.isEmpty_iff.mp hemp)
  rw [dropWhile_eq_self_of_all List.isEmpty L.reverse
      (fun x hx => hb x (List.mem_reverse.mp hx)),
    List.reverse_reverse,
    dropWhile_eq_self_of_all List.isEmpty L hb]

/-- C3 (amended): for a multi-line string whose lines are tab-free,
newline-delimited and non-blank, `postprocess` removes ALL leading
whitespace from the first line (not merely the shared prefix) and removes
from every later line exactly the common leading whitespace of the later
lines (a `k`-space prefix shared by all of them, maximal in that some
later line has no indentation beyond it), leaving the later lines'
relative indentation unchanged. -/
theorem C3_deindent_amended (l0 : List Char) (tails : List (List Char)) (k : Nat)
    (h0nl : '\n' ∉ l0) (h0tab : '\t' ∉ l0) (h0nb : pyLstrip l0 ≠ [])
    (ht : ∀ t ∈ tails, '\n' ∉ t ∧ '\t' ∉ t ∧ pyLstrip t ≠ [])
    (hmax : tails = [] ∨ ∃ t ∈ tails, lineIndent t = 0) :
    Markdown.postprocess
        (some ⟨joinNl (l0 :: tails.map (fun t => List.replicate k ' ' ++ t))⟩) =
      some ⟨joinNl (pyLstrip l0 :: tails)⟩ := by
  have hrestprops : ∀ r ∈ tails.map (fun t => List.replicate k ' ' ++ t),
      '\n' ∉ r ∧ '\t' ∉ r ∧ pyLstrip r ≠ [] := by
    intro r hr
    rcases List.mem_map.mp hr with ⟨t, htl, rfl⟩
    obtain ⟨tnl, ttab, tnb⟩ := ht t htl
    refine ⟨?_, ?_, ?_⟩
    · intro hm
      rcases List.mem_append.mp hm with hm | hm
      · exact absurd (List.eq_of_mem_replicate hm) (by decide)
      · exact tnl hm
    · intro hm
      rcases List.mem_append.mp hm with hm | hm
      · exact absurd (List.eq_of_mem_replicate hm) (by decide)
      · exact ttab hm
    · rw [pyLstrip_replicate_append]
      exact tnb
  have hdoc_tab : '\t' ∉ joinNl (l0 :: tails.map (fun t => List.replicate k ' ' ++ t)) := by
    intro hm
    rcases mem_joinNl _ hm with h | ⟨l, hl, hcl⟩
    · exact absurd h (by decide)
    · rcases List.mem_cons.mp hl with h2 | h2
      · apply h0tab
        rw [← h2]
        exact hcl
      · exact (hrestprops l h2).2.1 hcl
  have hnl_lines : ∀ l ∈ (l0 :: tails.map (fun t => List.replicate k ' ' ++ t)), '\n' ∉ l := by
    intro l hl
    rcases List.mem_cons.mp hl with h2 | h2
    · rw [h2]
      exact h0nl
    · exact (hrestprops l h2).1
  have hAM : applyMargin (tails.map (fun t => List.replicate k ' ' ++ t)) = tails := by
    rcases hmax with hnil | ⟨t0, ht0, hind0⟩
    · rw [hnil]
      rfl
    · have hmargin : marginOf (tails.map (fun t => List.replicate k ' ' ++ t)) = some k := by
        cases tails with
        | nil => cases ht0
        | cons t1 ts =>
          rw [List.map_cons]
          apply marginOf_cons_eq
          · rw [pyLstrip_replicate_append]
            intro hemp
            exact (ht t1 (List.mem_cons_self t1 ts)).2.2 (List.isEmpty_iff.mp hemp)
          · intro l hl
            rcases List.mem_map.mp hl with ⟨t, htl, rfl⟩
            rw [pyLstrip_replicate_append]
            intro hemp
            exact (ht t (List.mem_cons_of_mem t1 htl)).2.2 (List.isEmpty_iff.mp hemp)
          · rw [lineIndent_replicate_append]
            omega
          · intro l hl
            rcases List.mem_map.mp hl with ⟨t, htl, rfl⟩
            rw [lineIndent_replicate_append]
            omega
          · rcases List.mem_cons.mp ht0 with h2 | h2
            · left
              rw [lineIndent_replicate_append, ← h2, hind0]
              omega
            · right
              refine ⟨List.replicate k ' ' ++ t0, List.mem_map.mpr ⟨t0, h2, rfl⟩, ?_⟩
              rw [lineIndent_replicate_append, hind0]
              omega
      unfold applyMargin
      rw [hmargin]
      show (tails.map (fun t => List.replicate k ' ' ++ t)).map (List.drop k) = tails
      rw [List.map_map]
      have hfun : (List.drop k ∘ fun t : List Char => List.replicate k ' ' ++ t) = id := by
        funext t
        exact List.drop_left' (List.length_replicate k ' ')
      rw [hfun, List.map_id]
  have htrim : trimBlankEnds (pyLstrip l0 :: tails) = pyLstrip l0 :: tails := by
    apply trimBlankEnds_eq_self
    intro l hl
    rcases List.mem_cons.mp hl with h2 | h2
    · rw [h2]
      exact h0nb
    · intro hnil
      apply (ht l h2).2.2
      rw [hnil]
      rfl
  have key : cleandoc (joinNl (l0 :: tails.map (fun t => List.replicate k ' ' ++ t))) =
      joinNl (pyLstrip l0 :: tails) := by
    unfold cleandoc cleandocLines
    rw [pyExpandtabs_of_not_tab _ hdoc_tab,
      splitOnNl_joinNl _ hnl_lines (List.cons_ne_nil _ _)]
    change joinNl (trimBlankEnds (pyLstrip l0 ::
      applyMargin (tails.map (fun t => List.replicate k ' ' ++ t)))) = _
    rw [hAM, htrim]
  show some (⟨cleandoc (joinNl (l0 :: tails.map (fun t => List.replicate k ' ' ++ t)))⟩ : String) = _
  rw [key]

/-- C3 amended witness: `C3_deindent_amended` applied at the concrete
input `"xa\n   b\n  c"` (first line `"xa"`, later lines `"   b"` and
`"  c"` sharing the maximal two-space common prefix), yielding
`"xa\n b\nc"`. -/
theorem C3_deindent_amended_witness :
    Markdown.postprocess (some "xa\n   b\n  c") = some "xa\n b\nc" := by
  have h := C3_deindent_amended ['x', 'a'] [[' ', 'b'], ['c']] 2
    (by decide) (by decide) (by decide) (by decide) (by decide)
  exact h
